import Mathlib

/-!
Shallow embedding of `convert.py`: a one-shot batch job that reads a pose
file and an intrinsics file, normalizes the camera translations
(mean-centering plus isotropic rescale so the furthest camera sits at
distance 2 from the origin) and assembles an output manifest.

Numbers are modelled by exact reals; JSON documents by Lean structures.
The failure of the script on an empty `frames` array (an IndexError at
`all_c2w[:, :3, 3]`, before any output is written) is modelled by an
`Option` result.
-/

namespace Convert

noncomputable section

/-- One entry of the input pose file: an image path (`rgb_path`) and a 4x4
camera-to-world matrix (`world_from_camera`), row-major. -/
structure InFrame where
  rgb_path : String
  world_from_camera : Fin 4 → Fin 4 → ℝ

/-- The parsed pose file: the ordered `frames` array. -/
structure PosesData where
  frames : List InFrame

/-- The parsed intrinsics file: keys `fx fy cx cy width height`. -/
structure Intrinsics where
  fx : ℝ
  fy : ℝ
  cx : ℝ
  cy : ℝ
  width : ℝ
  height : ℝ

/-- One entry of the output `frames` array. -/
structure OutFrame where
  file_path : String
  transform_matrix : Fin 4 → Fin 4 → ℝ

/-- The output manifest written to `transforms.json`. -/
structure OutputData where
  fl_x : ℝ
  fl_y : ℝ
  cx : ℝ
  cy : ℝ
  w : ℝ
  h : ℝ
  sk_x : ℝ
  sk_y : ℝ
  k1 : ℝ
  k2 : ℝ
  p1 : ℝ
  p2 : ℝ
  is_fisheye : Bool
  sphere_center : List ℝ
  sphere_radius : ℝ
  aabb_scale : ℤ
  frames : List OutFrame

/-- Translation component of a 4x4 matrix: rows 0 to 2 of column 3
(the code's `c2w[:3, 3]`). -/
def camCenter (m : Fin 4 → Fin 4 → ℝ) : Fin 3 → ℝ :=
  fun i => m i.castSucc 3

/-- The code's `cam_centers = all_c2w[:, :3, 3]`: the translations of all
frames, in input order. -/
def camCenters (pd : PosesData) : List (Fin 3 → ℝ) :=
  pd.frames.map (fun f => camCenter f.world_from_camera)

/-- The code's `center = np.mean(cam_centers, axis=0)`: component-wise sum
of the translations divided by the number of cameras. -/
def center (pd : PosesData) : Fin 3 → ℝ :=
  fun j => ((camCenters pd).map (fun t => t j)).sum / ((camCenters pd).length : ℝ)

/-- Euclidean norm of a 3-vector, the code's `np.linalg.norm` on one row. -/
def norm3 (v : Fin 3 → ℝ) : ℝ :=
  Real.sqrt (v 0 ^ 2 + v 1 ^ 2 + v 2 ^ 2)

/-- The code's `np.linalg.norm(cam_centers - center, axis=1)`: the list of
distances from each camera translation to the center, in input order. -/
def distList (pd : PosesData) : List ℝ :=
  (camCenters pd).map (fun t => norm3 (fun j => t j - center pd j))

/-- The code's `max_dist = np.max(...)` over `distList`.  The fold starts at
0, which every (nonnegative) distance dominates, so on nonempty input this
is the maximum of the list. -/
def maxDist (pd : PosesData) : ℝ :=
  (distList pd).foldr max 0

/-- The code's `scale_factor = 2.0 / max_dist`. -/
def scale_factor (pd : PosesData) : ℝ :=
  2 / maxDist pd

/-- The per-frame normalization: `c2w[:3, 3] -= center; c2w[:3, 3] *= scale_factor`.
Only the translation entries (row < 3, column 3) change. -/
def transformMatrix (c : Fin 3 → ℝ) (s : ℝ) (m : Fin 4 → Fin 4 → ℝ) :
    Fin 4 → Fin 4 → ℝ :=
  fun i j => if h : i.val < 3 ∧ j = 3 then (m i j - c ⟨i.val, h.1⟩) * s else m i j

/-- The output `frames` array: for each input frame, in order, the original
file path paired with the normalized matrix. -/
def outFrames (pd : PosesData) : List OutFrame :=
  pd.frames.map (fun f =>
    { file_path := f.rgb_path
      transform_matrix :=
        transformMatrix (center pd) (scale_factor pd) f.world_from_camera })

/-- The manifest assembled by `main`: intrinsics copied over, fixed metadata
constants, and the transformed frames in input order. -/
def buildOutput (pd : PosesData) (intr : Intrinsics) : OutputData where
  fl_x := intr.fx
  fl_y := intr.fy
  cx := intr.cx
  cy := intr.cy
  w := intr.width
  h := intr.height
  sk_x := 0
  sk_y := 0
  k1 := 0
  k2 := 0
  p1 := 0
  p2 := 0
  is_fisheye := false
  sphere_center := [0, 0, 0]
  sphere_radius := 1
  aabb_scale := 1
  frames := outFrames pd

/-- The whole run of `main` on already-parsed input.  On an empty `frames`
array the script raises an IndexError at `all_c2w[:, :3, 3]` before any
output is written, modelled as `none`; otherwise the manifest is written. -/
def main (pd : PosesData) (intr : Intrinsics) : Option OutputData :=
  if pd.frames.isEmpty then none else some (buildOutput pd intr)

/-- Feeding the converter its own output: each output frame's
`transform_matrix` is read back as `world_from_camera`. -/
def rerunInput (o : OutputData) : PosesData :=
  ⟨o.frames.map (fun f =>
    { rgb_path := f.file_path, world_from_camera := f.transform_matrix })⟩

/-- Spec-side Euclidean norm: the norm of the vector viewed in
`EuclideanSpace ℝ (Fin 3)`. -/
def specNorm (v : Fin 3 → ℝ) : ℝ :=
  norm ((WithLp.equiv 2 (Fin 3 → ℝ)).symm v)

/-- Identity rotation with translation `t`, for concrete test inputs. -/
def mkMat (t : Fin 3 → ℝ) : Fin 4 → Fin 4 → ℝ :=
  fun i j =>
    if i = j then 1 else if h : i.val < 3 ∧ j = 3 then t ⟨i.val, h.1⟩ else 0

/-- Translation (0,0,0). -/
def tA : Fin 3 → ℝ := fun _ => 0

/-- Translation (4,0,0). -/
def tB : Fin 3 → ℝ := fun j => if j = 0 then 4 else 0

/-- Translation (1,1,1). -/
def tC : Fin 3 → ℝ := fun _ => 1

/-- The spec's concrete scenario: two frames with translations (0,0,0)
and (4,0,0). -/
def exPoses : PosesData :=
  ⟨[⟨"a.png", mkMat tA⟩, ⟨"b.png", mkMat tB⟩]⟩

/-- The spec's degenerate scenario: two frames with identical
translations (1,1,1). -/
def degPoses : PosesData :=
  ⟨[⟨"a.png", mkMat tC⟩, ⟨"b.png", mkMat tC⟩]⟩

/-- A concrete intrinsics document. -/
def exIntr : Intrinsics :=
  ⟨500, 500, 320, 240, 640, 480⟩

/-! ### Helper lemmas -/

theorem sum_map_sub_const (l : List ℝ) (k : ℝ) :
    (l.map (fun x => x - k)).sum = l.sum - l.length * k := by
  induction l with
  | nil => simp
  | cons a l ih =>
    simp only [List.map_cons, List.sum_cons, ih, List.length_cons]
    push_cast
    ring

theorem sum_map_mul_const (l : List ℝ) (k : ℝ) :
    (l.map (fun x => x * k)).sum = l.sum * k := by
  induction l with
  | nil => simp
  | cons a l ih =>
    simp only [List.map_cons, List.sum_cons, ih]
    ring

theorem le_foldr_max (l : List ℝ) (x : ℝ) (hx : x ∈ l) : x ≤ l.foldr max 0 := by
  induction l with
  | nil => cases hx
  | cons a l ih =>
    rcases List.mem_cons.mp hx with h | h
    · subst h; exact le_max_left _ _
    · exact le_trans (ih h) (le_max_right _ _)

theorem foldr_max_nonneg (l : List ℝ) : 0 ≤ l.foldr max 0 := by
  induction l with
  | nil => simp
  | cons a l ih => exact le_trans ih (le_max_right _ _)

theorem foldr_max_mem (l : List ℝ) (h : l ≠ []) (h0 : ∀ x ∈ l, 0 ≤ x) :
    l.foldr max 0 ∈ l := by
  induction l with
  | nil => exact absurd rfl h
  | cons a l ih =>
    cases l with
    | nil =>
      simp only [List.foldr]
      rw [max_eq_left (h0 a (List.mem_cons_self a []))]
      exact List.mem_cons_self a []
    | cons b l =>
      have hm := ih (by simp) (fun x hx => h0 x (List.mem_cons_of_mem a hx))
      rcases max_choice a ((b :: l).foldr max 0) with hc | hc
      · simp only [List.foldr] at hc ⊢
        rw [hc]; exact List.mem_cons_self _ _
      · simp only [List.foldr] at hc ⊢
        rw [hc]; exact List.mem_cons_of_mem a hm

theorem foldr_max_map_mul (l : List ℝ) (s : ℝ) (hs : 0 ≤ s) :
    (l.map (fun x => x * s)).foldr max 0 = l.foldr max 0 * s := by
  induction l with
  | nil => simp
  | cons a l ih =>
    simp only [List.map_cons, List.foldr, ih]
    exact (max_mul_of_nonneg _ _ hs).symm

theorem castSucc_ne_three : ∀ c : Fin 3, (c.castSucc : Fin 4) ≠ 3 := by
  decide

theorem norm3_nonneg (v : Fin 3 → ℝ) : 0 ≤ norm3 v :=
  Real.sqrt_nonneg _

theorem norm3_mul_right (v : Fin 3 → ℝ) (s : ℝ) (hs : 0 ≤ s) :
    norm3 (fun j => v j * s) = norm3 v * s := by
  unfold norm3
  rw [show (v 0 * s) ^ 2 + (v 1 * s) ^ 2 + (v 2 * s) ^ 2
      = (v 0 ^ 2 + v 1 ^ 2 + v 2 ^ 2) * s ^ 2 by ring,
    Real.sqrt_mul (by positivity), Real.sqrt_sq hs]

theorem norm3_eq_specNorm (v : Fin 3 → ℝ) : norm3 v = specNorm v := by
  unfold specNorm
  rw [EuclideanSpace.norm_eq]
  simp only [WithLp.equiv_symm_pi_apply, Real.norm_eq_abs, sq_abs,
    Fin.sum_univ_three]
  rfl

theorem sqrt_four : Real.sqrt 4 = 2 := by
  rw [show (4 : ℝ) = 2 ^ 2 by norm_num, Real.sqrt_sq (by norm_num)]

theorem camCenter_transformMatrix (c : Fin 3 → ℝ) (s : ℝ)
    (m : Fin 4 → Fin 4 → ℝ) :
    camCenter (transformMatrix c s m) = fun j => (camCenter m j - c j) * s := by
  funext j
  have hj : (j.castSucc : Fin 4).val < 3 := j.isLt
  simp only [camCenter, transformMatrix, hj, and_self, dif_pos, true_and]
  congr 1

theorem transformMatrix_rot (c : Fin 3 → ℝ) (s : ℝ) (m : Fin 4 → Fin 4 → ℝ)
    (i j : Fin 4) (h : ¬(i.val < 3 ∧ j = 3)) :
    transformMatrix c s m i j = m i j := by
  simp only [transformMatrix, h, dif_neg, not_false_iff]

theorem camCenter_mkMat (t : Fin 3 → ℝ) : camCenter (mkMat t) = t := by
  funext j
  have h1 : (j.castSucc : Fin 4) ≠ 3 := by revert j; decide
  have h2 : (j.castSucc : Fin 4).val < 3 := j.isLt
  simp only [camCenter, mkMat, h1, if_false, h2, and_self, dif_pos, true_and]
  congr 1

theorem camCenters_length (pd : PosesData) :
    (camCenters pd).length = pd.frames.length := by
  simp [camCenters]

theorem sum_centered (pd : PosesData) (h : pd.frames ≠ []) (j : Fin 3) :
    ((camCenters pd).map (fun t => t j - center pd j)).sum = 0 := by
  have hmap : (camCenters pd).map (fun t => t j - center pd j)
      = ((camCenters pd).map (fun t => t j)).map (fun x => x - center pd j) := by
    simp [List.map_map, Function.comp]
  have hn : ((camCenters pd).length : ℝ) ≠ 0 := by
    have hlen : pd.frames.length ≠ 0 := fun hc => h (List.length_eq_zero.mp hc)
    rw [camCenters_length]
    exact_mod_cast hlen
  rw [hmap, sum_map_sub_const]
  simp only [center]
  field_simp

/-! ### Concrete evaluations on the example inputs -/

theorem camCenters_ex : camCenters exPoses = [tA, tB] := by
  simp [camCenters, exPoses, camCenter_mkMat]

theorem center_ex : center exPoses = fun j => if j = 0 then 2 else 0 := by
  funext j
  rw [center, camCenters_ex]
  simp only [tA, tB, List.map_cons, List.map_nil, List.sum_cons, List.sum_nil,
    List.length_cons, List.length_nil]
  split_ifs <;> norm_num

theorem distList_ex : distList exPoses = [2, 2] := by
  rw [distList, camCenters_ex, center_ex]
  simp only [List.map_cons, List.map_nil, tA, tB, norm3]
  norm_num [sqrt_four, show (1 : Fin 3) ≠ 0 from by decide,
    show (2 : Fin 3) ≠ 0 from by decide]

theorem maxDist_ex : maxDist exPoses = 2 := by
  rw [maxDist, distList_ex]
  simp only [List.foldr]
  rw [max_eq_left (by norm_num : (0 : ℝ) ≤ 2), max_self]

theorem scale_factor_ex : scale_factor exPoses = 1 := by
  rw [scale_factor, maxDist_ex]
  norm_num

theorem camCenters_deg : camCenters degPoses = [tC, tC] := by
  simp [camCenters, degPoses, camCenter_mkMat]

theorem center_deg : center degPoses = tC := by
  funext j
  rw [center, camCenters_deg]
  simp only [tC, List.map_cons, List.map_nil, List.sum_cons, List.sum_nil,
    List.length_cons, List.length_nil]
  norm_num

theorem distList_deg : distList degPoses = [0, 0] := by
  rw [distList, camCenters_deg, center_deg]
  simp [norm3]

theorem maxDist_deg : maxDist degPoses = 0 := by
  rw [maxDist, distList_deg]
  simp [List.foldr]

theorem isEmpty_iff_nil {α : Type} (l : List α) : l.isEmpty = true ↔ l = [] := by
  cases l <;> simp [List.isEmpty]

theorem main_of_ne_nil (pd : PosesData) (intr : Intrinsics)
    (h : pd.frames ≠ []) : main pd intr = some (buildOutput pd intr) := by
  rw [main, if_neg]
  simp only [isEmpty_iff_nil]
  exact h

theorem main_eq_some (pd : PosesData) (intr : Intrinsics) (o : OutputData)
    (ho : main pd intr = some o) :
    o = buildOutput pd intr ∧ pd.frames ≠ [] := by
  by_cases hemp : pd.frames = []
  · rw [main, if_pos ((isEmpty_iff_nil _).mpr hemp)] at ho
    cases ho
  · rw [main, if_neg (fun hc => hemp ((isEmpty_iff_nil _).mp hc))] at ho
    exact ⟨(Option.some.inj ho).symm, hemp⟩

/-! ### Claim theorems -/

/-- C1: for every valid (nonempty) input pose file, the run produces a
manifest whose `frames` array has exactly as many entries as the input
`frames` array, and the i-th output frame's `file_path` equals the i-th
input frame's `rgb_path` — same order, no reordering or deduplication. -/
theorem frame_count_and_paths_preserved (pd : PosesData) (intr : Intrinsics)
    (h : pd.frames ≠ []) :
    main pd intr = some (buildOutput pd intr) ∧
    (buildOutput pd intr).frames.length = pd.frames.length ∧
    ∀ (i : ℕ) (h1 : i < (buildOutput pd intr).frames.length)
      (h2 : i < pd.frames.length),
      ((buildOutput pd intr).frames.get ⟨i, h1⟩).file_path
        = (pd.frames.get ⟨i, h2⟩).rgb_path := by
  refine ⟨main_of_ne_nil pd intr h, by simp [buildOutput, outFrames], ?_⟩
  intro i h1 h2
  simp [buildOutput, outFrames, List.get_eq_getElem, List.getElem_map]

/-- Witness for C1 at the concrete two-frame input. -/
theorem frame_count_and_paths_preserved_witness :
    exPoses.frames ≠ [] ∧
    (buildOutput exPoses exIntr).frames.length = exPoses.frames.length :=
  ⟨by simp [exPoses],
   (frame_count_and_paths_preserved exPoses exIntr (by simp [exPoses])).2.1⟩

/-- C10: on an input pose file with an empty frames array, the run fails
during normalization (the translation extraction errors on an empty array)
before the output write is reached: no manifest is produced. -/
theorem empty_input_no_output (intr : Intrinsics) :
    main ⟨[]⟩ intr = none := rfl

/-- C5: at the degenerate input where both camera translations are (1,1,1),
the computed max_dist is 0, yet the run still succeeds and produces a
manifest: the code has no error path between the division `2.0 / max_dist`
and the output write, so nothing is raised or reported there. -/
theorem degenerate_input_no_error :
    maxDist degPoses = 0 ∧ (main degPoses exIntr).isSome = true := by
  refine ⟨maxDist_deg, ?_⟩
  rw [main_of_ne_nil degPoses exIntr (by simp [degPoses])]
  rfl

/-- C9: the manifest copies the intrinsics verbatim (fx, fy, cx, cy, width,
height to fl_x, fl_y, cx, cy, w, h), sets the remaining metadata to fixed
constants, and carries the frames sequence. -/
theorem manifest_fields (pd : PosesData) (intr : Intrinsics) (o : OutputData)
    (ho : main pd intr = some o) :
    o.fl_x = intr.fx ∧ o.fl_y = intr.fy ∧ o.cx = intr.cx ∧ o.cy = intr.cy ∧
    o.w = intr.width ∧ o.h = intr.height ∧ o.sk_x = 0 ∧ o.sk_y = 0 ∧
    o.k1 = 0 ∧ o.k2 = 0 ∧ o.p1 = 0 ∧ o.p2 = 0 ∧ o.is_fisheye = false ∧
    o.sphere_center = [0, 0, 0] ∧ o.sphere_radius = 1 ∧ o.aabb_scale = 1 ∧
    o.frames = pd.frames.map (fun f =>
      { file_path := f.rgb_path
        transform_matrix :=
          transformMatrix (center pd) (scale_factor pd) f.world_from_camera }) := by
  obtain ⟨hbo, -⟩ := main_eq_some pd intr o ho
  subst hbo
  exact ⟨rfl, rfl, rfl, rfl, rfl, rfl, rfl, rfl, rfl, rfl, rfl, rfl, rfl,
    rfl, rfl, rfl, rfl⟩

/-- Witness for C9 at the concrete two-frame input. -/
theorem manifest_fields_witness :
    main exPoses exIntr = some (buildOutput exPoses exIntr) ∧
    (buildOutput exPoses exIntr).fl_x = exIntr.fx ∧
    (buildOutput exPoses exIntr).aabb_scale = 1 :=
  ⟨main_of_ne_nil exPoses exIntr (by simp [exPoses]),
   (manifest_fields exPoses exIntr (buildOutput exPoses exIntr)
      (main_of_ne_nil exPoses exIntr (by simp [exPoses]))).1,
   (manifest_fields exPoses exIntr (buildOutput exPoses exIntr)
      (main_of_ne_nil exPoses exIntr
        (by simp [exPoses]))).2.2.2.2.2.2.2.2.2.2.2.2.2.2.2.1⟩

/-- C2: on a nonempty input with nondegenerate geometry, the normalizer
statistics are what the spec says: the center is the component-wise
arithmetic mean of the translations, max_dist is an upper bound on — and is
attained by — the Euclidean distances from the translations to the center,
and the scale factor times max_dist is 2 (i.e. scale_factor = 2 / max_dist). -/
theorem normalizer_stats (pd : PosesData) (h : pd.frames ≠ [])
    (hpos : maxDist pd ≠ 0) :
    (∀ j, (pd.frames.length : ℝ) * center pd j
        = ((camCenters pd).map (fun t => t j)).sum) ∧
    (∀ t ∈ camCenters pd,
        specNorm (fun j => t j - center pd j) ≤ maxDist pd) ∧
    (∃ t ∈ camCenters pd,
        specNorm (fun j => t j - center pd j) = maxDist pd) ∧
    scale_factor pd * maxDist pd = 2 := by
  have hn : ((camCenters pd).length : ℝ) ≠ 0 := by
    have hlen : pd.frames.length ≠ 0 := fun hc => h (List.length_eq_zero.mp hc)
    rw [camCenters_length]
    exact_mod_cast hlen
  refine ⟨?_, ?_, ?_, ?_⟩
  · intro j
    simp only [center]
    rw [camCenters_length] at hn ⊢
    field_simp
  · intro t ht
    rw [← norm3_eq_specNorm]
    exact le_foldr_max _ _ (List.mem_map_of_mem _ ht)
  · have hne : distList pd ≠ [] := by
      simp [distList, camCenters, h]
    have hnn : ∀ x ∈ distList pd, 0 ≤ x := by
      intro x hx
      obtain ⟨t, -, rfl⟩ := List.mem_map.mp hx
      exact norm3_nonneg _
    have hmem : maxDist pd ∈ distList pd := foldr_max_mem _ hne hnn
    obtain ⟨t, ht, heq⟩ := List.mem_map.mp hmem
    exact ⟨t, ht, by rw [← norm3_eq_specNorm]; exact heq⟩
  · rw [scale_factor]
    field_simp

/-- Witness for C2 at the concrete two-frame input. -/
theorem normalizer_stats_witness :
    exPoses.frames ≠ [] ∧ maxDist exPoses ≠ 0 ∧
    scale_factor exPoses * maxDist exPoses = 2 :=
  ⟨by simp [exPoses], by rw [maxDist_ex]; norm_num,
   (normalizer_stats exPoses (by simp [exPoses])
      (by rw [maxDist_ex]; norm_num)).2.2.2⟩

/-- C3: every frame of the produced manifest has a transformed translation
whose Euclidean norm is at most 2. -/
theorem output_translation_within_radius (pd : PosesData) (intr : Intrinsics)
    (o : OutputData) (ho : main pd intr = some o)
    (f : OutFrame) (hf : f ∈ o.frames) :
    specNorm (camCenter f.transform_matrix) ≤ 2 := by
  obtain ⟨hbo, -⟩ := main_eq_some pd intr o ho
  subst hbo
  simp only [buildOutput, outFrames] at hf
  obtain ⟨g, hg, rfl⟩ := List.mem_map.mp hf
  rw [← norm3_eq_specNorm]
  simp only [camCenter_transformMatrix]
  have hs : 0 ≤ scale_factor pd := by
    rw [scale_factor]
    exact div_nonneg (by norm_num) (foldr_max_nonneg _)
  rw [norm3_mul_right _ _ hs]
  have hle : norm3 (fun j => camCenter g.world_from_camera j - center pd j)
      ≤ maxDist pd :=
    le_foldr_max _ _
      (List.mem_map_of_mem _ (List.mem_map_of_mem _ hg))
  by_cases hm : maxDist pd = 0
  · have h0 : norm3 (fun j => camCenter g.world_from_camera j - center pd j)
        = 0 := le_antisymm (hm ▸ hle) (norm3_nonneg _)
    rw [h0, zero_mul]
    norm_num
  · refine le_trans (mul_le_mul_of_nonneg_right hle hs) ?_
    rw [scale_factor]
    rw [show maxDist pd * (2 / maxDist pd) = 2 by field_simp]

/-- The first output frame on the concrete two-frame input. -/
def exOutFrame : OutFrame :=
  { file_path := "a.png"
    transform_matrix :=
      transformMatrix (center exPoses) (scale_factor exPoses) (mkMat tA) }

/-- Witness for C3 at the concrete two-frame input. -/
theorem output_translation_within_radius_witness :
    main exPoses exIntr = some (buildOutput exPoses exIntr) ∧
    exOutFrame ∈ (buildOutput exPoses exIntr).frames ∧
    specNorm (camCenter exOutFrame.transform_matrix) ≤ 2 :=
  ⟨main_of_ne_nil exPoses exIntr (by simp [exPoses]),
   by
    simp only [buildOutput, outFrames, exPoses, List.map_cons, List.map_nil]
    exact List.mem_cons_self _ _,
   output_translation_within_radius exPoses exIntr (buildOutput exPoses exIntr)
     (main_of_ne_nil exPoses exIntr (by simp [exPoses])) exOutFrame
     (by
       simp only [buildOutput, outFrames, exPoses, List.map_cons, List.map_nil]
       exact List.mem_cons_self _ _)⟩

/-- C4: in every produced frame, the top-left 3x3 rotation block of the
output matrix equals the corresponding input rotation block exactly, and
every entry outside the translation slots (row < 3, column 3) is unchanged. -/
theorem rotation_block_preserved (pd : PosesData) (intr : Intrinsics)
    (o : OutputData) (ho : main pd intr = some o)
    (i : ℕ) (h1 : i < o.frames.length) (h2 : i < pd.frames.length) :
    (∀ r c : Fin 3,
      (o.frames.get ⟨i, h1⟩).transform_matrix r.castSucc c.castSucc
        = (pd.frames.get ⟨i, h2⟩).world_from_camera r.castSucc c.castSucc) ∧
    (∀ r c : Fin 4, ¬(r.val < 3 ∧ c = 3) →
      (o.frames.get ⟨i, h1⟩).transform_matrix r c
        = (pd.frames.get ⟨i, h2⟩).world_from_camera r c) := by
  obtain ⟨hbo, -⟩ := main_eq_some pd intr o ho
  subst hbo
  have hget : ((buildOutput pd intr).frames.get ⟨i, h1⟩).transform_matrix
      = transformMatrix (center pd) (scale_factor pd)
          (pd.frames.get ⟨i, h2⟩).world_from_camera := by
    simp [buildOutput, outFrames, List.get_eq_getElem, List.getElem_map]
  rw [hget]
  constructor
  · intro r c
    apply transformMatrix_rot
    intro hc
    exact castSucc_ne_three c hc.2
  · intro r c hrc
    exact transformMatrix_rot _ _ _ _ _ hrc

/-- Witness for C4 at the concrete two-frame input, frame 0, entry (0,0). -/
theorem rotation_block_preserved_witness :
    main exPoses exIntr = some (buildOutput exPoses exIntr) ∧
    ((buildOutput exPoses exIntr).frames.get
        ⟨0, by simp [buildOutput, outFrames, exPoses]⟩).transform_matrix
        (0 : Fin 3).castSucc (0 : Fin 3).castSucc
      = (exPoses.frames.get ⟨0, by simp [exPoses]⟩).world_from_camera
        (0 : Fin 3).castSucc (0 : Fin 3).castSucc :=
  ⟨main_of_ne_nil exPoses exIntr (by simp [exPoses]),
   (rotation_block_preserved exPoses exIntr (buildOutput exPoses exIntr)
      (main_of_ne_nil exPoses exIntr (by simp [exPoses])) 0
      (by simp [buildOutput, outFrames, exPoses]) (by simp [exPoses])).1 0 0⟩

/-- C7: on the concrete input with translations (0,0,0) and (4,0,0), the
center is (2,0,0), max_dist is 2, the scale factor is 1, and the output
translations are (-2,0,0) and (2,0,0), in that order. -/
theorem concrete_two_frame_scenario :
    center exPoses = (fun j => if j = 0 then 2 else 0) ∧
    maxDist exPoses = 2 ∧
    scale_factor exPoses = 1 ∧
    (buildOutput exPoses exIntr).frames.map
        (fun f => camCenter f.transform_matrix)
      = [fun j => if j = 0 then -2 else 0, fun j => if j = 0 then 2 else 0] := by
  refine ⟨center_ex, maxDist_ex, scale_factor_ex, ?_⟩
  have h1 : (buildOutput exPoses exIntr).frames.map
        (fun f => camCenter f.transform_matrix)
      = exPoses.frames.map (fun f =>
          camCenter (transformMatrix (center exPoses) (scale_factor exPoses)
            f.world_from_camera)) := by
    simp only [buildOutput, outFrames, List.map_map]
    rfl
  rw [h1]
  simp only [center_ex, scale_factor_ex]
  simp only [exPoses, List.map_cons, List.map_nil, camCenter_transformMatrix,
    camCenter_mkMat, mul_one]
  congr 1
  · funext j
    simp only [tA]
    split_ifs <;> norm_num
  congr 1
  · funext j
    simp only [tB]
    split_ifs <;> norm_num

theorem sum_out_translations (pd : PosesData) (h : pd.frames ≠ []) (j : Fin 3) :
    ((camCenters pd).map
      (fun t => (t j - center pd j) * scale_factor pd)).sum = 0 := by
  have h2 : (camCenters pd).map (fun t => (t j - center pd j) * scale_factor pd)
      = ((camCenters pd).map (fun t => t j - center pd j)).map
          (fun x => x * scale_factor pd) := by
    rw [List.map_map]
    rfl
  rw [h2, sum_map_mul_const, sum_centered pd h j, zero_mul]

/-- C8: the component-wise mean of the output translations, divided by the
scale factor, is exactly the zero vector. -/
theorem centering_property (pd : PosesData) (intr : Intrinsics)
    (h : pd.frames ≠ []) (j : Fin 3) :
    (((buildOutput pd intr).frames.map
        (fun f => camCenter f.transform_matrix j)).sum
      / ((buildOutput pd intr).frames.length : ℝ)) / scale_factor pd = 0 := by
  have hmap : (buildOutput pd intr).frames.map
        (fun f => camCenter f.transform_matrix j)
      = (camCenters pd).map
          (fun t => (t j - center pd j) * scale_factor pd) := by
    simp only [buildOutput, outFrames, camCenters, List.map_map]
    congr 1
    funext f
    simp only [Function.comp, camCenter_transformMatrix]
  rw [hmap, sum_out_translations pd h j, zero_div, zero_div]

/-- Witness for C8 at the concrete two-frame input, component 0. -/
theorem centering_property_witness :
    exPoses.frames ≠ [] ∧
    (((buildOutput exPoses exIntr).frames.map
        (fun f => camCenter f.transform_matrix 0)).sum
      / ((buildOutput exPoses exIntr).frames.length : ℝ))
      / scale_factor exPoses = 0 :=
  ⟨by simp [exPoses], centering_property exPoses exIntr (by simp [exPoses]) 0⟩

/-! ### Re-running the converter on its own output -/

theorem transformMatrix_id (m : Fin 4 → Fin 4 → ℝ) :
    transformMatrix (fun _ => 0) 1 m = m := by
  funext i j
  rw [transformMatrix]
  split_ifs <;> simp

theorem rerun_frames (pd : PosesData) (intr : Intrinsics) :
    (rerunInput (buildOutput pd intr)).frames
      = pd.frames.map (fun f =>
          { rgb_path := f.rgb_path
            world_from_camera :=
              transformMatrix (center pd) (scale_factor pd)
                f.world_from_camera }) := by
  simp only [rerunInput, buildOutput, outFrames, List.map_map]
  rfl

theorem rerun_camCenters (pd : PosesData) (intr : Intrinsics) :
    camCenters (rerunInput (buildOutput pd intr))
      = (camCenters pd).map
          (fun t => fun j => (t j - center pd j) * scale_factor pd) := by
  simp only [camCenters, rerunInput, buildOutput, outFrames, List.map_map]
  congr 1
  funext f
  simp only [Function.comp, camCenter_transformMatrix]

theorem rerun_center (pd : PosesData) (intr : Intrinsics)
    (h : pd.frames ≠ []) :
    center (rerunInput (buildOutput pd intr)) = fun _ => 0 := by
  funext j
  have hhead : center (rerunInput (buildOutput pd intr)) j
      = ((camCenters (rerunInput (buildOutput pd intr))).map
            (fun t => t j)).sum
        / ((camCenters (rerunInput (buildOutput pd intr))).length : ℝ) := rfl
  rw [hhead, rerun_camCenters pd intr, List.map_map]
  have hcomp : ((fun t : Fin 3 → ℝ => t j)
        ∘ (fun t : Fin 3 → ℝ => fun j2 => (t j2 - center pd j2) * scale_factor pd))
      = fun t : Fin 3 → ℝ => (t j - center pd j) * scale_factor pd := rfl
  rw [hcomp, sum_out_translations pd h j, zero_div]

theorem rerun_maxDist (pd : PosesData) (intr : Intrinsics)
    (h : pd.frames ≠ []) (hpos : 0 < maxDist pd) :
    maxDist (rerunInput (buildOutput pd intr)) = 2 := by
  have hs : 0 ≤ scale_factor pd :=
    div_nonneg (by norm_num) (foldr_max_nonneg _)
  have hdl : distList (rerunInput (buildOutput pd intr))
      = (distList pd).map (fun x => x * scale_factor pd) := by
    simp only [distList, rerun_camCenters pd intr, rerun_center pd intr h,
      List.map_map]
    congr 1
    funext t
    simp only [Function.comp, sub_zero]
    exact norm3_mul_right (fun j => t j - center pd j) (scale_factor pd) hs
  rw [maxDist, hdl, foldr_max_map_mul _ _ hs, ← maxDist, scale_factor]
  field_simp

theorem rerun_scale (pd : PosesData) (intr : Intrinsics)
    (h : pd.frames ≠ []) (hpos : 0 < maxDist pd) :
    scale_factor (rerunInput (buildOutput pd intr)) = 1 := by
  rw [scale_factor, rerun_maxDist pd intr h hpos]
  norm_num

theorem buildOutput_congr (pd1 pd2 : PosesData) (intr : Intrinsics)
    (h : outFrames pd1 = outFrames pd2) :
    buildOutput pd1 intr = buildOutput pd2 intr := by
  simp only [buildOutput, h]

theorem rerun_outFrames (pd : PosesData) (intr : Intrinsics)
    (h : pd.frames ≠ []) (hpos : 0 < maxDist pd) :
    outFrames (rerunInput (buildOutput pd intr)) = outFrames pd := by
  have hc2 := rerun_center pd intr h
  have hs2 := rerun_scale pd intr h hpos
  calc outFrames (rerunInput (buildOutput pd intr))
      = (rerunInput (buildOutput pd intr)).frames.map (fun f =>
          { file_path := f.rgb_path
            transform_matrix := f.world_from_camera }) := by
        simp only [outFrames, hc2, hs2, transformMatrix_id]
    _ = outFrames pd := by
        rw [rerun_frames pd intr, List.map_map]
        rfl

/-- C6 (amended): re-running the converter on its own output computes a
center of zero and a max distance of exactly 2, hence a scale factor of 1,
and reproduces the same manifest — in exact arithmetic the transform is
idempotent, and the second run's scale factor is always 1 rather than a
further shrink. -/
theorem rerun_reproduces_output (pd : PosesData) (intr : Intrinsics)
    (h : pd.frames ≠ []) (hpos : 0 < maxDist pd) :
    center (rerunInput (buildOutput pd intr)) = (fun _ => 0) ∧
    maxDist (rerunInput (buildOutput pd intr)) = 2 ∧
    scale_factor (rerunInput (buildOutput pd intr)) = 1 ∧
    buildOutput (rerunInput (buildOutput pd intr)) intr = buildOutput pd intr :=
  ⟨rerun_center pd intr h, rerun_maxDist pd intr h hpos,
   rerun_scale pd intr h hpos,
   buildOutput_congr _ _ intr (rerun_outFrames pd intr h hpos)⟩

/-- Witness for the amended C6 at the concrete two-frame input. -/
theorem rerun_reproduces_output_witness :
    exPoses.frames ≠ [] ∧ 0 < maxDist exPoses ∧
    scale_factor (rerunInput (buildOutput exPoses exIntr)) = 1 :=
  ⟨by simp [exPoses], by rw [maxDist_ex]; norm_num,
   (rerun_reproduces_output exPoses exIntr (by simp [exPoses])
      (by rw [maxDist_ex]; norm_num)).2.2.1⟩

/-- C6 counterexample: on the concrete two-frame input the claim fails —
the second run's scale factor equals the first run's (both are 1) and the
second manifest equals the first, so nothing shrinks further. -/
theorem rerun_not_shrinking_counterexample :
    scale_factor (rerunInput (buildOutput exPoses exIntr))
      = scale_factor exPoses ∧
    buildOutput (rerunInput (buildOutput exPoses exIntr)) exIntr
      = buildOutput exPoses exIntr := by
  constructor
  · rw [rerun_scale exPoses exIntr (by simp [exPoses])
      (by rw [maxDist_ex]; norm_num), scale_factor_ex]
  · exact buildOutput_congr _ _ exIntr
      (rerun_outFrames exPoses exIntr (by simp [exPoses])
        (by rw [maxDist_ex]; norm_num))

end

end Convert
